import Mathlib

/-!
Verification development for the lab-agent repository.

The definitions below are a shallow embedding of the Python sources:
  * `restart_agent_service.py` (the Install Supervisor),
  * `main.py` (the agent: update check, command router, handlers),
  * `update_system/updater.py` and `update_system/extractor.py`
    (manifest builder and staging extractor).

File contents are modelled as strings or as lists of byte values,
directories as association lists from names (or component paths) to
contents, and OS side effects (service control, network) as explicit
environment records.  Machine-level hashing (`hashlib.sha256`) is
embedded as the FIPS 180-4 SHA-256 algorithm over byte lists, with
32-bit arithmetic carried out on `Nat` modulo `2 ^ 32`.
-/

set_option maxHeartbeats 1000000

/-! ## Python string helpers -/

/-- Whitespace characters removed by Python's `str.strip()` (ASCII part). -/
def isSpaceChar (c : Char) : Bool :=
  c = ' ' || c = '\t' || c = '\n' || c = '\x0d' || c = '\x0b' || c = '\x0c'

/-- Model of Python `str.strip()`: drop leading and trailing whitespace. -/
def pyStrip (s : String) : String :=
  String.mk (((s.data.dropWhile isSpaceChar).reverse.dropWhile isSpaceChar).reverse)

/-! ## Association-list file stores

Directories are association lists from keys (file names or component
paths) to contents; `setKey` models writing a file: it overwrites the
existing entry or appends a fresh one. -/

/-- Write `v` under key `k`: replace an existing entry, else append. -/
def setKey [DecidableEq α] (l : List (α × β)) (k : α) (v : β) : List (α × β) :=
  if l.any (fun e => decide (e.1 = k)) then
    l.map (fun e => if e.1 = k then (k, v) else e)
  else
    l ++ [(k, v)]

/-- Read the (first) entry stored under key `k`. -/
def getVal [DecidableEq α] (l : List (α × β)) (k : α) : Option β :=
  match l with
  | [] => none
  | e :: es => if e.1 = k then some e.2 else getVal es k

/-! ## SHA-256 (FIPS 180-4), as used by `hashlib.sha256` in
`Updater._get_file_hash` (`update_system/updater.py`).  Words are `Nat`
values kept below `2 ^ 32` by explicit reduction. -/

/-- The 32-bit modulus. -/
def w32 : Nat := 4294967296

/-- Right-rotation of a 32-bit word. -/
def rotr (n x : Nat) : Nat := (x / 2 ^ n + x % 2 ^ n * 2 ^ (32 - n)) % w32

/-- Logical right shift. -/
def shr (n x : Nat) : Nat := x / 2 ^ n

/-- Bitwise complement on 32 bits. -/
def bnot32 (x : Nat) : Nat := (w32 - 1) ^^^ x

/-- SHA-256 `Ch` function. -/
def ch256 (x y z : Nat) : Nat := (x &&& y) ^^^ (bnot32 x &&& z)

/-- SHA-256 `Maj` function. -/
def maj256 (x y z : Nat) : Nat := (x &&& y) ^^^ (x &&& z) ^^^ (y &&& z)

/-- SHA-256 `Σ0`. -/
def bigS0 (x : Nat) : Nat := rotr 2 x ^^^ rotr 13 x ^^^ rotr 22 x

/-- SHA-256 `Σ1`. -/
def bigS1 (x : Nat) : Nat := rotr 6 x ^^^ rotr 11 x ^^^ rotr 25 x

/-- SHA-256 `σ0`. -/
def smallS0 (x : Nat) : Nat := rotr 7 x ^^^ rotr 18 x ^^^ shr 3 x

/-- SHA-256 `σ1`. -/
def smallS1 (x : Nat) : Nat := rotr 17 x ^^^ rotr 19 x ^^^ shr 10 x

/-- The 64 SHA-256 round constants. -/
def K256 : List Nat :=
  [1116352408, 1899447441, 3049323471, 3921009573, 961987163,
   1508970993, 2453635748, 2870763221, 3624381080, 310598401,
   607225278, 1426881987, 1925078388, 2162078206, 2614888103,
   3248222580, 3835390401, 4022224774, 264347078, 604807628,
   770255983, 1249150122, 1555081692, 1996064986, 2554220882,
   2821834349, 2952996808, 3210313671, 3336571891, 3584528711,
   113926993, 338241895, 666307205, 773529912, 1294757372,
   1396182291, 1695183700, 1986661051, 2177026350, 2456956037,
   2730485921, 2820302411, 3259730800, 3345764771, 3516065817,
   3600352804, 4094571909, 275423344, 430227734, 506948616,
   659060556, 883997877, 958139571, 1322822218, 1537002063,
   1747873779, 1955562222, 2024104815, 2227730452, 2361852424,
   2428436474, 2756734187, 3204031479, 3329325298]

/-- The eight SHA-256 state words. -/
abbrev Hash8 : Type := Nat × Nat × Nat × Nat × Nat × Nat × Nat × Nat

/-- SHA-256 initial hash value. -/
def H256 : Hash8 :=
  (1779033703, 3144134277, 1013904242, 2773480762,
   1359893119, 2600822924, 528734635, 1541459225)

/-- SHA-256 message padding: append `0x80`, zero bytes, and the 64-bit
big-endian bit length so the total length is a multiple of 64 bytes. -/
def padMessage (msg : List Nat) : List Nat :=
  let L := msg.length
  let k := (64 - (L % 64 + 9) % 64) % 64
  let bitLen := 8 * L
  msg ++ [128] ++ List.replicate k 0 ++
    [bitLen / 2 ^ 56 % 256, bitLen / 2 ^ 48 % 256, bitLen / 2 ^ 40 % 256, bitLen / 2 ^ 32 % 256,
     bitLen / 2 ^ 24 % 256, bitLen / 2 ^ 16 % 256, bitLen / 2 ^ 8 % 256, bitLen % 256]

/-- Split a padded message into 64-byte blocks. -/
def blocksOf (padded : List Nat) : List (List Nat) :=
  (List.range (padded.length / 64)).map (fun i => ((padded.drop (64 * i)).take 64))

/-- The first 16 schedule words of a block (big-endian 4-byte groups). -/
def wordsOfBlock (b : List Nat) : List Nat :=
  (List.range 16).map (fun i =>
    b.getD (4 * i) 0 * 16777216 + b.getD (4 * i + 1) 0 * 65536 +
    b.getD (4 * i + 2) 0 * 256 + b.getD (4 * i + 3) 0)

/-- Extend the 16 schedule words to 64. -/
def msgSchedule (w0 : List Nat) : List Nat :=
  (List.range 48).foldl
    (fun w _ =>
      let t := w.length
      w ++ [(smallS1 (w.getD (t - 2) 0) + w.getD (t - 7) 0 +
             smallS0 (w.getD (t - 15) 0) + w.getD (t - 16) 0) % w32])
    w0

/-- One SHA-256 round. -/
def roundStep (st : Hash8) (kw : Nat × Nat) : Hash8 :=
  let (a, b, c, d, e, f, g, h) := st
  let t1 := (h + bigS1 e + ch256 e f g + kw.1 + kw.2) % w32
  let t2 := (bigS0 a + maj256 a b c) % w32
  ((t1 + t2) % w32, a, b, c, (d + t1) % w32, e, f, g)

/-- Process one 64-byte block. -/
def compressBlock (hs : Hash8) (block : List Nat) : Hash8 :=
  let w := msgSchedule (wordsOfBlock block)
  let r := (K256.zip w).foldl roundStep hs
  ((hs.1 + r.1) % w32,
   (hs.2.1 + r.2.1) % w32,
   (hs.2.2.1 + r.2.2.1) % w32,
   (hs.2.2.2.1 + r.2.2.2.1) % w32,
   (hs.2.2.2.2.1 + r.2.2.2.2.1) % w32,
   (hs.2.2.2.2.2.1 + r.2.2.2.2.2.1) % w32,
   (hs.2.2.2.2.2.2.1 + r.2.2.2.2.2.2.1) % w32,
   (hs.2.2.2.2.2.2.2 + r.2.2.2.2.2.2.2) % w32)

/-- The eight final hash words of a byte message. -/
def shaTuple (msg : List Nat) : Hash8 :=
  (blocksOf (padMessage msg)).foldl compressBlock H256

/-- Hex digit character. -/
def hexChar (n : Nat) : Char :=
  if n = 0 then '0' else if n = 1 then '1' else if n = 2 then '2' else if n = 3 then '3'
  else if n = 4 then '4' else if n = 5 then '5' else if n = 6 then '6' else if n = 7 then '7'
  else if n = 8 then '8' else if n = 9 then '9' else if n = 10 then 'a' else if n = 11 then 'b'
  else if n = 12 then 'c' else if n = 13 then 'd' else if n = 14 then 'e' else 'f'

/-- Eight hex characters of one 32-bit word (big-endian nibbles). -/
def wordHex (x : Nat) : List Char :=
  (List.range 8).map (fun i => hexChar (x / 16 ^ (7 - i) % 16))

/-- Hex rendering of the eight final hash words. -/
def tupleHex (t : Hash8) : String :=
  let (a, b, c, d, e, f, g, h) := t
  String.mk (wordHex a ++ wordHex b ++ wordHex c ++ wordHex d ++
             wordHex e ++ wordHex f ++ wordHex g ++ wordHex h)

/-- Model of `hashlib.sha256(data).hexdigest()`. -/
def sha256hex (msg : List Nat) : String :=
  tupleHex (shaTuple msg)

/-- All eight state words are below `2 ^ 32`. -/
def Bounded8 (t : Hash8) : Prop :=
  t.1 < w32 ∧ t.2.1 < w32 ∧ t.2.2.1 < w32 ∧ t.2.2.2.1 < w32 ∧
  t.2.2.2.2.1 < w32 ∧ t.2.2.2.2.2.1 < w32 ∧ t.2.2.2.2.2.2.1 < w32 ∧
  t.2.2.2.2.2.2.2 < w32

/-- The finite digest space: eight 32-bit words. -/
abbrev Digest8 : Type :=
  Fin w32 × Fin w32 × Fin w32 × Fin w32 × Fin w32 × Fin w32 × Fin w32 × Fin w32

/-- SHA-256 of a 33-byte message, packaged into the finite digest space. -/
def shaFin (f : Fin 33 → Fin 256) : Digest8 :=
  let t := shaTuple (List.ofFn (fun j => (f j).val))
  (⟨t.1 % w32, Nat.mod_lt _ (by norm_num [w32])⟩,
   ⟨t.2.1 % w32, Nat.mod_lt _ (by norm_num [w32])⟩,
   ⟨t.2.2.1 % w32, Nat.mod_lt _ (by norm_num [w32])⟩,
   ⟨t.2.2.2.1 % w32, Nat.mod_lt _ (by norm_num [w32])⟩,
   ⟨t.2.2.2.2.1 % w32, Nat.mod_lt _ (by norm_num [w32])⟩,
   ⟨t.2.2.2.2.2.1 % w32, Nat.mod_lt _ (by norm_num [w32])⟩,
   ⟨t.2.2.2.2.2.2.1 % w32, Nat.mod_lt _ (by norm_num [w32])⟩,
   ⟨t.2.2.2.2.2.2.2 % w32, Nat.mod_lt _ (by norm_num [w32])⟩)

/-! ## Manifest Builder (`Updater.create_file_hash_table`,
`update_system/updater.py`).

The updater directory's file tree is modelled as an association list
from relative component paths to byte contents.  The walk of
`create_file_hash_table` skips the ignored directories (pruned from
`dirs`) and the ignored file names, hashes every remaining regular
file, and — crucially for claim C4 — persists the resulting table to
`file_hashes.json` in the updater directory. -/

/-- The `ignored_dirs` list of `create_file_hash_table` (with `self.temp_dir`). -/
def ignoredDirs : List String := [".git", "__pycache__", "agent_env", "update_temp"]

/-- The `ignored_files` list of `create_file_hash_table` (with `self.hash_file`). -/
def ignoredFiles : List String := ["file_hashes.json", "agent_new.zip", "updater_package.zip"]

/-- A relative path contributes a manifest entry unless a directory on
it is ignored or its file name is ignored. -/
def includedInManifest (p : List String) : Bool :=
  !p.isEmpty && p.dropLast.all (fun d => !ignoredDirs.contains d) &&
    !ignoredFiles.contains (p.getLastD "")

/-- Model of `Updater.create_file_hash_table`'s manifest computation:
one SHA-256 entry per non-ignored file. -/
def create_file_hash_table : List (List String × List Nat) → List (List String × String)
  | [] => []
  | e :: rest =>
    if includedInManifest e.1 then
      (e.1, sha256hex e.2) :: create_file_hash_table rest
    else
      create_file_hash_table rest

/-- Join path components with `/`. -/
def joinPath (p : List String) : String := String.intercalate "/" p

/-- Model of `json.dump(file_hashes, f, indent=2)` for a string table. -/
def jsonOfTable (t : List (List String × String)) : String :=
  if t.isEmpty then "\x7b\x7d"
  else
    "\x7b\n" ++
      String.intercalate ",\n"
        (t.map (fun e => "  \"" ++ joinPath e.1 ++ "\": \"" ++ e.2 ++ "\"")) ++
      "\n\x7d"

/-- UTF-8-free byte rendering of an ASCII string. -/
def strBytes (s : String) : List Nat := s.data.map Char.toNat

/-- The updater directory's persistent files. -/
structure UpdaterState where
  files : List (List String × List Nat)
  deriving DecidableEq

/-- Relative path of `self.hash_file`. -/
def hashFilePath : List String := ["file_hashes.json"]

/-- Model of `Updater.create_file_hash_table` including its side effect:
it returns the manifest and writes it to `file_hashes.json`. -/
def create_file_hash_table_run (s : UpdaterState) :
    List (List String × String) × UpdaterState :=
  let t := create_file_hash_table s.files
  (t, ⟨setKey s.files hashFilePath (strBytes (jsonOfTable t))⟩)

/-- Outcome of `UpdateServer.send_hash_table` as seen by the updater. -/
inductive ServerReply
  | noReply
  | reply (updateAvailable : Bool) (version : String)
  deriving DecidableEq

/-- Model of `Updater.check_for_updates`: builds (and persists) the
manifest, sends it, and reports `(update_needed, latest_version)`. -/
def check_for_updates_run (env : ServerReply) (s : UpdaterState) :
    (Bool × Option String) × UpdaterState :=
  let r := create_file_hash_table_run s
  match env with
  | .noReply => ((false, none), r.2)
  | .reply true v => ((true, some v), r.2)
  | .reply false v => ((false, some v), r.2)

/-! ## Staging extraction (`zipfile.extractall` as called by
`extract_update_safely` in `restart_agent_service.py` and
`Extractor.extract_update` in `update_system/extractor.py`).

Both call CPython's `ZipFile.extractall`, whose `_extract_member`
sanitizes each archive member name before joining it to the target
directory: the name is split on the path separator and every component
that is empty, `.`, or `..` is dropped (drive prefixes and leading
slashes disappear the same way).  Paths are modelled as component
lists; an entry whose raw name ends in `/` is a directory entry and
creates no file. -/

/-- Does `l` start with `pat`?  (List-level, kernel-friendly.) -/
def listStartsWith [DecidableEq α] : List α → List α → Bool
  | [], _ => true
  | _ :: _, [] => false
  | p :: ps, x :: xs => p = x && listStartsWith ps xs

/-- Model of Python `str.endswith` on character lists. -/
def strEndsWith (s suff : String) : Bool :=
  listStartsWith suff.data.reverse s.data.reverse

/-- Model of Python `str.split(sep)` for a single-character separator
(used for the `/`-separated archive member names). -/
def splitChars (sep : Char) : List Char → List Char → List String
  | [], acc => [String.mk acc.reverse]
  | c :: rest, acc =>
    if c = sep then String.mk acc.reverse :: splitChars sep rest []
    else splitChars sep rest (c :: acc)

/-- Split a member name on `/`. -/
def pySplitSlash (s : String) : List String := splitChars '/' s.data []

/-- CPython `_extract_member` sanitization: drop empty, dot and dotdot components. -/
def sanitizeParts (parts : List String) : List String :=
  parts.filter (fun c => !(c = "" || c = "." || c = ".."))

/-- Target component path of one archive member below the staging root. -/
def zipEntryPath (name : String) : List String :=
  sanitizeParts (pySplitSlash name)

/-- A staged file tree: sanitized component paths to file contents. -/
abbrev FileTree : Type := List (List String × String)

/-- Model of `ZipFile.extractall` into a fresh staging directory. -/
def extractall (es : List (String × String)) : FileTree :=
  es.foldl
    (fun t e => if strEndsWith e.1 "/" then t else setKey t (zipEntryPath e.1) e.2)
    []

/-- Absolute paths written by extraction below the staging root. -/
def extractedPaths (root : List String) (es : List (String × String)) :
    List (List String) :=
  (extractall es).map (fun e => root ++ e.1)

/-! ## Install Supervisor (`restart_agent_service.py`) and the agent's
update check (`check_updates` in `main.py`).

The two processes share one directory (`UPDATER_DIR`): the ticket
`restart.flag`, the package `agent_new.zip`, the staging subdirectory
`update/`, the backup subdirectory `backup/`, and the live top-level
files (`main.py`, `version.txt`, ...).  A downloaded package is either
a non-well-formed byte blob or a well-formed archive with named
entries; service control outcomes come from the environment. -/

/-- A downloaded `agent_new.zip`: either corrupted bytes or a
well-formed archive of (member name, member data) entries. -/
inductive Archive
  | corrupt (byteLen : Nat)
  | wellFormed (entries : List (String × String))
  deriving DecidableEq

/-- On-disk size of the downloaded file (a corrupt blob has its raw
length; a well-formed zip carries headers, names, and data). -/
def Archive.byteSize : Archive → Nat
  | .corrupt n => n
  | .wellFormed es => 22 + (es.map (fun e => 76 + 2 * e.1.length + e.2.length)).sum

/-- Members extracted by `extractall` (none for a corrupt file). -/
def Archive.entriesOf : Archive → List (String × String)
  | .corrupt _ => []
  | .wellFormed es => es

/-- Model of `validate_zip_file`: a corrupt file fails `testzip`, and a
well-formed archive is accepted only if `main.py` is in its namelist. -/
def validate_zip_file : Archive → Bool
  | .corrupt _ => false
  | .wellFormed es => (es.map Prod.fst).contains "main.py"

/-- The shared `UPDATER_DIR` plus service state, as the supervisor and
the agent's update check observe it. -/
structure SupState where
  flag : Option String
  zipFile : Option Archive
  live : List (String × String)
  extractDir : Option FileTree
  backups : List (List (String × String))
  serviceRunning : Bool
  deriving DecidableEq

/-- Outcomes of the two `nssm` service-control calls in one cycle. -/
structure SupEnv where
  stopOk : Bool
  startOk : Bool
  deriving DecidableEq

/-- The `important_files` set of `create_backup`. -/
def importantFiles : List String :=
  ["main.py", "version.txt", "agent_config.json", "restart_agent_service.py"]

/-- Model of `create_backup`: copy the existing important files into a
fresh timestamped backup directory (live files untouched). -/
def create_backup (s : SupState) : SupState :=
  { s with backups := s.backups ++
      [importantFiles.filterMap (fun n => (getVal s.live n).map (fun c => (n, c)))] }

/-- Model of `apply_update_safely`'s move loop: every top-level *file*
of the staging directory overwrites the same-named live file. -/
def applyUpdate (tree : FileTree) (live : List (String × String)) :
    List (String × String) :=
  tree.foldl
    (fun lv e =>
      match e.1 with
      | [n] => setKey lv n e.2
      | _ => lv)
    live

/-- Entries left in the staging directory after the move loop
(directories and nested files are not moved). -/
def remainingTree (tree : FileTree) : FileTree :=
  tree.filter (fun e =>
    match e.1 with
    | [_] => false
    | _ => true)

/-- One poll iteration of the Install Supervisor's `main` loop
(`restart_agent_service.py`): detect the ticket, validate the package,
back up, stop the service, extract, write the version file, promote,
remove package and ticket, re-check the version file, restart. -/
def runCycle (env : SupEnv) (s : SupState) : SupState :=
  match s.flag with
  | none => s
  | some fc =>
    let target := pyStrip fc
    match s.zipFile with
    | none => { s with flag := none }
    | some ar =>
      if validate_zip_file ar = false then
        { s with zipFile := none, flag := none }
      else
        let s₁ := create_backup s
        if env.stopOk = false then
          if env.startOk then { s₁ with serviceRunning := true } else s₁
        else
          let tree := extractall ar.entriesOf
          let live₁ := setKey s₁.live "version.txt" target
          let live₂ := applyUpdate tree live₁
          let live₃ :=
            if pyStrip ((getVal live₂ "version.txt").getD "") ≠ target then
              setKey live₂ "version.txt" target
            else live₂
          { s₁ with
            serviceRunning := env.startOk,
            extractDir := some (remainingTree tree),
            live := live₃,
            zipFile := none,
            flag := none }

/-- Network environment of one `check_updates` call in `main.py`. -/
structure NetEnv where
  serverVersion : Option String
  download : Option Archive
  deriving DecidableEq

/-- Model of `check_updates` (`main.py`): read the local version, ask
the server, download on mismatch, and — after checking only that the
file exists and is non-empty — write the `restart.flag` ticket. -/
def check_updates (net : NetEnv) (s : SupState) : SupState :=
  match getVal s.live "version.txt" with
  | none => s
  | some lv =>
    match net.serverVersion with
    | none => s
    | some sv =>
      if sv ≠ pyStrip lv then
        match net.download with
        | none => s
        | some ar =>
          if ar.byteSize = 0 then { s with zipFile := none }
          else { s with zipFile := some ar, flag := some sv }
      else s

/-- Concrete environment: both service-control calls succeed. -/
def supEnvOk : SupEnv := ⟨true, true⟩

/-- Concrete state for C1: a ticket for version `1.2.3` and a staged
package that itself ships a `version.txt` whose content is the target
version followed by a newline. -/
def supStateC1 : SupState :=
  ⟨some "1.2.3",
   some (Archive.wellFormed [("main.py", "new code"), ("version.txt", "1.2.3\n")]),
   [("version.txt", "1.0.0"), ("main.py", "old code")],
   none, [], true⟩

/-- Concrete environment for C2: the service stop fails. -/
def supEnvStopFail : SupEnv := ⟨false, true⟩

/-- Concrete state for C3: a live `version.txt`, no ticket, no package. -/
def supStateC3 : SupState :=
  ⟨none, none, [("version.txt", "1.0")], none, [], true⟩

/-- Concrete network environment for C3: the server advertises `2.0`
and the download yields a corrupt, non-empty file. -/
def netEnvC3 : NetEnv := ⟨some "2.0", some (Archive.corrupt 10)⟩

/-! ## Command results, dispatch, and the consumer callback
(`send_command_result`, `process_command`, `command_callback` in
`main.py`).

Handler side effects (`netsh`, hosts-file edits, downloads, screenshots)
are abstracted as environment-provided outcomes: a handler either
returns `(success, message)` or raises a Python `Exception` (caught by
`process_command`'s inner `except`).  The `UPDATE` branch calls
`check_updates`, which swallows every `Exception` but calls
`sys.exit(0)` when an update was staged — `SystemExit` is *not* an
`Exception` subclass, so it escapes `process_command` and
`command_callback` alike. -/

/-- Model of Python `str.upper()` (ASCII). -/
def pyUpper (s : String) : String := String.mk (s.data.map Char.toUpper)

/-- The JSON body posted to `/agent/command-result`. -/
structure ResultPayload where
  command_id : String
  completed_at : String
  error : Option String
  output : Option String
  deriving DecidableEq

/-- Python truthiness of the optional `error` string. -/
def errTruthy : Option String → Bool
  | none => false
  | some s => if s = "" then false else true

/-- Model of `send_command_result`: `none` when no request is made
(empty `command_id`); otherwise the payload that is posted. -/
def send_command_result (command_id : String) (error output : Option String)
    (now : String) : Option ResultPayload :=
  if command_id = "" then none
  else
    some
      { command_id := command_id
        completed_at := now
        error := if errTruthy error then error else none
        output := if output ≠ none ∧ errTruthy error = false then output else none }

/-- Outcome of one abstract handler call. -/
inductive HandlerOut
  | ret (success : Bool) (msg : String)
  | raiseExc (msg : String)
  deriving DecidableEq

/-- Environment of one `process_command` call: the clock, whether
`check_updates` stages an update (and exits), each handler's outcome,
and the persisted `computer_id`. -/
structure HandlerEnv where
  now : String
  updateExits : Bool
  firewallOn : HandlerOut
  firewallOff : HandlerOut
  blockSite : HandlerOut
  unblockSite : HandlerOut
  downloadInst : HandlerOut
  configComputerId : Option String
  screenshot : HandlerOut
  custom : HandlerOut
  deriving DecidableEq

/-- The fields of a decoded command envelope that dispatch reads. -/
structure CmdMsg where
  type : String
  command_id : String
  deriving DecidableEq

/-- Result of `process_command`: a normal return (with the posted
CommandResult, if any), or a propagating `SystemExit`. -/
inductive ProcOutcome
  | done (success : Bool) (sent : Option ResultPayload)
  | exited
  deriving DecidableEq

/-- The `(success, error, output)` triple of a handler branch, with a raised
`Exception` converted by the inner `except` to a failure. -/
def branchResult : HandlerOut → Bool × Option String × Option String
  | .ret true msg => (true, none, some msg)
  | .ret false msg => (false, some msg, none)
  | .raiseExc msg => (false, some msg, none)

/-- Finish a `process_command` call: post the CommandResult exactly as
`send_command_result(command_id, error if not success else None,
output if success else None)` does. -/
def finishCommand (env : HandlerEnv) (command_id : String)
    (r : Bool × Option String × Option String) : ProcOutcome :=
  .done r.1
    (send_command_result command_id (if r.1 then none else r.2.1)
      (if r.1 then r.2.2 else none) env.now)

/-- The known command kinds of the dispatch chain. -/
def knownCommandTypes : List String :=
  ["UPDATE", "FIREWALL_ON", "FIREWALL_OFF", "BLOCK_WEBSITE", "UNBLOCK_WEBSITE",
   "DOWNLOAD_INSTALLER", "SCREENSHOT", "CUSTOM"]

/-- Model of `process_command` (`main.py`): normalize the type string,
dispatch, and post a CommandResult. -/
def process_command (env : HandlerEnv) (m : CmdMsg) : ProcOutcome :=
  let tu := pyUpper (pyStrip m.type)
  if tu = "UPDATE" then
    if env.updateExits then .exited
    else finishCommand env m.command_id (true, none, some "Update process initiated")
  else if tu = "FIREWALL_ON" then finishCommand env m.command_id (branchResult env.firewallOn)
  else if tu = "FIREWALL_OFF" then finishCommand env m.command_id (branchResult env.firewallOff)
  else if tu = "BLOCK_WEBSITE" then finishCommand env m.command_id (branchResult env.blockSite)
  else if tu = "UNBLOCK_WEBSITE" then finishCommand env m.command_id (branchResult env.unblockSite)
  else if tu = "DOWNLOAD_INSTALLER" then finishCommand env m.command_id (branchResult env.downloadInst)
  else if tu = "SCREENSHOT" then
    match env.configComputerId with
    | none => finishCommand env m.command_id (false, some "Computer ID not found in config", none)
    | some _ => finishCommand env m.command_id (branchResult env.screenshot)
  else if tu = "CUSTOM" then finishCommand env m.command_id (branchResult env.custom)
  else finishCommand env m.command_id (false, some ("Unknown command type: " ++ m.type), none)

/-- An inbound broker delivery: undecodable bytes, non-JSON text, or a
decoded command message. -/
inductive InboundBody
  | notUtf8
  | notJson (raw : String)
  | msg (m : CmdMsg)
  deriving DecidableEq

/-- Observable effect of one `command_callback` invocation. -/
structure CallbackEffect where
  acks : Nat
  handled : Option (CmdMsg × ProcOutcome)
  exited : Bool
  deriving DecidableEq

/-- Model of `command_callback`: decode errors and `Exception`s are
caught and logged, then `basic_ack` runs; a propagating `SystemExit`
skips the ack. -/
def command_callback (env : HandlerEnv) (b : InboundBody) : CallbackEffect :=
  match b with
  | .notUtf8 => ⟨1, none, false⟩
  | .notJson _ => ⟨1, none, false⟩
  | .msg m =>
    match process_command env m with
    | .exited => ⟨0, some (m, .exited), true⟩
    | o => ⟨1, some (m, o), false⟩

/-- The consumption loop: deliveries are handled in order until one
terminates the consumer. -/
def consumeLoop (env : HandlerEnv) : List InboundBody → List CallbackEffect
  | [] => []
  | b :: rest =>
    let eff := command_callback env b
    if eff.exited then [eff] else eff :: consumeLoop env rest

/-- Environment for the C7 counterexample: `check_updates` finds an
update, stages it, and calls `sys.exit(0)`. -/
def handlerEnvExit : HandlerEnv :=
  ⟨"2025-01-01T00:00:00.000Z", true, .ret true "", .ret true "", .ret true "",
   .ret true "", .ret true "", none, .ret true "", .ret true ""⟩

/-- Environment with the same handlers but no staged update. -/
def handlerEnvNoExit : HandlerEnv :=
  ⟨"2025-01-01T00:00:00.000Z", false, .ret true "", .ret true "", .ret true "",
   .ret true "", .ret true "", none, .ret true "", .ret true ""⟩

/-- An `UPDATE` command envelope. -/
def updateMsg : CmdMsg := ⟨"UPDATE", "cmd-1"⟩

/-- An unknown-type command envelope. -/
def fooMsg : CmdMsg := ⟨"FOO", "id-1"⟩

/-! ## Hosts-file website blocking (`block_website`,
`remove_website_block` in `main.py`).

The hosts file is a character list.  Python's substring test `in` is
`occursIn`; `block_website` reads the whole file once, appends a
`127.0.0.1 <site>` line for every requested site whose line is not
already a substring, and reports success; `remove_website_block` reads
the lines (keeping newlines), rewrites only the lines matching no
requested site, and reports success either way. -/

/-- Does `needle` occur as a contiguous substring of the list? -/
def occursIn (needle : List Char) : List Char → Bool
  | [] => listStartsWith needle []
  | c :: rest => listStartsWith needle (c :: rest) || occursIn needle rest

/-- The blocking text for one website entry. -/
def blockLine (w : String) : List Char := ("127.0.0.1 " ++ w).data

/-- Model of `block_website`: `(new content, success, message)`. -/
def block_website (ws : List String) (content : List Char) :
    List Char × Bool × String :=
  let toAdd := ws.filter (fun w => !occursIn (blockLine w) content)
  (content ++ (toAdd.map (fun w => blockLine w ++ ['\n'])).flatten,
   true,
   if toAdd.isEmpty then "All websites were already blocked"
   else "Successfully blocked websites: " ++ String.intercalate ", " toAdd)

/-- Model of `file.readlines()`: split after every newline, keeping it. -/
def readlinesAux : List Char → List Char → List (List Char)
  | [], acc => if acc.isEmpty then [] else [acc.reverse]
  | c :: rest, acc =>
    if c = '\n' then (acc.reverse ++ ['\n']) :: readlinesAux rest []
    else readlinesAux rest (c :: acc)

/-- The lines of a hosts file, with their newlines. -/
def readlines (content : List Char) : List (List Char) :=
  readlinesAux content []

/-- Model of `remove_website_block`: `(new content, success, message)`. -/
def remove_website_block (ws : List String) (content : List Char) :
    List Char × Bool × String :=
  let lines := readlines content
  let kept := lines.filter (fun l => !ws.any (fun w => occursIn (blockLine w) l))
  let removed := lines.filterMap (fun l => ws.find? (fun w => occursIn (blockLine w) l))
  (kept.flatten, true,
   if removed.isEmpty then "No websites were found to unblock"
   else "Successfully unblocked websites: " ++ String.intercalate ", " removed)

/-- Number of exact blocking lines for one entry in the hosts file. -/
def countBlockLines (w : String) (content : List Char) : Nat :=
  (readlines content).countP
    (fun l => l = blockLine w ++ ['\n'] || l = blockLine w)

/-- Does the content end with a newline (or is it empty)? -/
def endsNl : List Char → Bool
  | [] => true
  | [c] => c = '\n'
  | _ :: rest => endsNl rest

/-- Hosts file that already holds the same blocking line twice
(written by something other than `block_website`). -/
def hostsDup : List Char := ("127.0.0.1 x.com\n127.0.0.1 x.com\n").data

/-- Fresh hosts file with a comment line only. -/
def hostsClean : List Char := ("# hosts\n").data

/-! ## Theorems -/

theorem dropWhile_dropWhile (p : α → Bool) (l : List α) :
    (l.dropWhile p).dropWhile p = l.dropWhile p := by
  induction l with
  | nil => rfl
  | cons a as ih =>
    by_cases h : p a
    · simpa [List.dropWhile, h] using ih
    · simp [List.dropWhile, h]

theorem dropWhile_head_false (p : α → Bool) (l : List α) (a : α)
    (h : a ∈ (l.dropWhile p).head?) : p a = false := by
  induction l with
  | nil => simp [List.dropWhile] at h
  | cons b bs ih =>
    by_cases hb : p b
    · exact ih (by simpa [List.dropWhile, hb] using h)
    · simp [List.dropWhile, hb] at h
      simp [h ▸ hb]

theorem dropWhile_of_head_false (p : α → Bool) (l : List α)
    (h : ∀ a ∈ l.head?, p a = false) : l.dropWhile p = l := by
  cases l with
  | nil => rfl
  | cons a as => simp [List.dropWhile, h a (by simp)]

/-- Stripping is idempotent. -/
theorem pyStrip_idem (s : String) : pyStrip (pyStrip s) = pyStrip s := by
  unfold pyStrip
  congr 1
  set l₁ := s.data.dropWhile isSpaceChar with hl₁
  set l₂ := (l₁.reverse.dropWhile isSpaceChar).reverse with hl₂
  have h₂ : l₂.dropWhile isSpaceChar = l₂ := by
    apply dropWhile_of_head_false
    intro a ha
    -- the head of `l₂` is the head of `l₁` (removing a suffix keeps the head
    -- when the result is nonempty), and the head of `l₁` fails `isSpaceChar`
    have hsuffix : l₁.reverse.dropWhile isSpaceChar <:+ l₁.reverse :=
      List.dropWhile_suffix _
    have hpre : l₂ <+: l₁ := by
      have := List.reverse_prefix.mpr hsuffix
      simpa [hl₂] using this
    obtain ⟨t, ht⟩ := hpre
    cases hc : l₂ with
    | nil => simp [hc] at ha
    | cons b bs =>
      have hb : a = b := by
        rw [hc] at ha
        simpa using ha.symm
      have hhead : l₁.head? = some b := by
        rw [← ht, hc]; simp
      have hmem : b ∈ (s.data.dropWhile isSpaceChar).head? := by
        rw [← hl₁, hhead]; rfl
      exact hb ▸ dropWhile_head_false isSpaceChar s.data b hmem
  rw [h₂]
  have h₃ : l₂.reverse.dropWhile isSpaceChar = l₂.reverse := by
    rw [hl₂, List.reverse_reverse]
    exact dropWhile_dropWhile _ _
  rw [h₃, List.reverse_reverse]

theorem getVal_map_overwrite [DecidableEq α] (l : List (α × β)) (k k' : α) (v : β)
    (h : k ≠ k') :
    getVal (l.map (fun e => if e.1 = k then (k, v) else e)) k' = getVal l k' := by
  induction l with
  | nil => rfl
  | cons e es ih =>
    by_cases he : e.1 = k
    · simp only [List.map_cons, if_pos he, getVal]
      rw [if_neg h, if_neg (he ▸ h)]
      exact ih
    · simp only [List.map_cons, if_neg he, getVal]
      by_cases hk : e.1 = k'
      · simp [hk]
      · rw [if_neg hk, if_neg hk]
        exact ih

theorem getVal_append_single [DecidableEq α] (l : List (α × β)) (k k' : α) (v : β)
    (h : k ≠ k') : getVal (l ++ [(k, v)]) k' = getVal l k' := by
  induction l with
  | nil => simp [getVal, if_neg h]
  | cons e es ih =>
    simp only [List.cons_append, getVal]
    by_cases hk : e.1 = k'
    · simp [hk]
    · rw [if_neg hk, if_neg hk]
      exact ih

theorem getVal_setKey_ne [DecidableEq α] (l : List (α × β)) (k k' : α) (v : β)
    (h : k ≠ k') : getVal (setKey l k v) k' = getVal l k' := by
  unfold setKey
  by_cases ha : l.any (fun e => decide (e.1 = k))
  · rw [if_pos ha]
    exact getVal_map_overwrite l k k' v h
  · rw [if_neg ha]
    exact getVal_append_single l k k' v h

theorem getVal_map_overwrite_self [DecidableEq α] (l : List (α × β)) (k : α) (v : β)
    (h : l.any (fun e => decide (e.1 = k)) = true) :
    getVal (l.map (fun e => if e.1 = k then (k, v) else e)) k = some v := by
  induction l with
  | nil => simp at h
  | cons e es ih =>
    by_cases he : e.1 = k
    · simp [getVal, he]
    · have hes : es.any (fun e => decide (e.1 = k)) = true := by
        rw [List.any_cons] at h
        rcases Bool.or_eq_true_iff.mp h with h' | h'
        · exact absurd (by simpa using h') he
        · exact h'
      simp only [List.map_cons, if_neg he, getVal]
      exact ih hes

theorem getVal_setKey_self [DecidableEq α] (l : List (α × β)) (k : α) (v : β) :
    getVal (setKey l k v) k = some v := by
  unfold setKey
  by_cases h : l.any (fun e => decide (e.1 = k))
  · rw [if_pos h]
    exact getVal_map_overwrite_self l k v h
  · rw [if_neg h]
    induction l with
    | nil => simp [getVal]
    | cons e es ih =>
      have he : ¬ (e.1 = k) := by
        intro hk
        exact h (by rw [List.any_cons]; exact Bool.or_eq_true_iff.mpr (Or.inl (by simpa using hk)))
      have hes : ¬ (es.any (fun e => decide (e.1 = k)) = true) := by
        intro hk
        exact h (by rw [List.any_cons]; exact Bool.or_eq_true_iff.mpr (Or.inr hk))
      simp only [List.cons_append, getVal]
      rw [if_neg he]
      exact ih hes

theorem setKey_any_self [DecidableEq α] (l : List (α × β)) (k : α) (v : β) :
    (setKey l k v).any (fun e => decide (e.1 = k)) = true := by
  unfold setKey
  by_cases h : l.any (fun e => decide (e.1 = k))
  · rw [if_pos h]
    induction l with
    | nil => simp at h
    | cons e es ih =>
      by_cases he : e.1 = k
      · simp [he]
      · have hes : es.any (fun e => decide (e.1 = k)) = true := by
          rw [List.any_cons] at h
          rcases Bool.or_eq_true_iff.mp h with h' | h'
          · exact absurd (by simpa using h') he
          · exact h'
        simp only [List.map_cons, if_neg he, List.any_cons]
        exact Bool.or_eq_true_iff.mpr (Or.inr (ih hes))
  · rw [if_neg h]
    simp

theorem mem_setKey_key_eq [DecidableEq α] (l : List (α × β)) (k : α) (v : β)
    (e : α × β) (he : e ∈ setKey l k v) (hk : e.1 = k) : e = (k, v) := by
  unfold setKey at he
  by_cases h : l.any (fun e => decide (e.1 = k))
  · rw [if_pos h] at he
    rw [List.mem_map] at he
    obtain ⟨a, _, ha⟩ := he
    by_cases h1 : a.1 = k
    · simpa [h1] using ha.symm
    · rw [if_neg h1] at ha
      exact absurd (ha ▸ hk) h1
  · rw [if_neg h] at he
    rw [List.mem_append] at he
    rcases he with he | he
    · refine absurd ?_ h
      rw [List.any_eq_true]
      exact ⟨e, he, by simpa using hk⟩
    · simpa using he

theorem map_overwrite_eq_self [DecidableEq α] (l : List (α × β)) (k : α) (v : β)
    (h : ∀ e ∈ l, e.1 = k → e = (k, v)) :
    l.map (fun e => if e.1 = k then (k, v) else e) = l := by
  induction l with
  | nil => rfl
  | cons e es ih =>
    have h1 : (if e.1 = k then (k, v) else e) = e := by
      by_cases he : e.1 = k
      · rw [if_pos he]
        exact (h e (by simp) he).symm
      · rw [if_neg he]
    simp only [List.map_cons, h1]
    rw [ih (fun e' he' hk => h e' (by simp [he']) hk)]

/-- Writing the same value twice is the same as writing it once. -/
theorem setKey_setKey_same [DecidableEq α] (l : List (α × β)) (k : α) (v : β) :
    setKey (setKey l k v) k v = setKey l k v := by
  have hany := setKey_any_self l k v
  rw [setKey, if_pos hany]
  exact map_overwrite_eq_self _ _ _ (mem_setKey_key_eq l k v)

theorem w32_pos : 0 < w32 := by norm_num [w32]

theorem compressBlock_bounded (hs : Hash8) (b : List Nat) :
    Bounded8 (compressBlock hs b) := by
  simp only [compressBlock, Bounded8]
  refine ⟨?_, ?_, ?_, ?_, ?_, ?_, ?_, ?_⟩ <;> exact Nat.mod_lt _ w32_pos

theorem foldl_compress_bounded (bs : List (List Nat)) (hs : Hash8)
    (h : Bounded8 hs) : Bounded8 (bs.foldl compressBlock hs) := by
  induction bs generalizing hs with
  | nil => exact h
  | cons b rest ih =>
    rw [List.foldl_cons]
    exact ih _ (compressBlock_bounded _ _)

theorem shaTuple_bounded (msg : List Nat) : Bounded8 (shaTuple msg) :=
  foldl_compress_bounded _ _ (by constructor <;> norm_num [H256, w32])

/-- Pigeonhole: SHA-256 maps the `2 ^ 264` messages of length 33 into a
digest space of size `2 ^ 256`, so two distinct byte lists share a digest. -/
theorem sha256_collision :
    ∃ m₁ m₂ : List Nat, m₁ ≠ m₂ ∧ sha256hex m₁ = sha256hex m₂ := by
  have hcard : Fintype.card Digest8 < Fintype.card (Fin 33 → Fin 256) := by
    simp only [Fintype.card_prod, Fintype.card_fun, Fintype.card_fin]
    norm_num [w32]
  obtain ⟨a, b, hne, heq⟩ := Fintype.exists_ne_map_eq_of_card_lt shaFin hcard
  set La : List Nat := List.ofFn (fun j => (a j).val) with hLa
  set Lb : List Nat := List.ofFn (fun j => (b j).val) with hLb
  have hba := shaTuple_bounded La
  have hbb := shaTuple_bounded Lb
  refine ⟨La, Lb, ?_, ?_⟩
  · intro hl
    apply hne
    have hfn : (fun j => ((a j).val : Nat)) = (fun j => (b j).val) :=
      List.ofFn_injective hl
    funext j
    exact Fin.val_injective (congrFun hfn j)
  · have e1 : (shaTuple La).1 % w32 = (shaTuple Lb).1 % w32 :=
      congrArg (fun d : Digest8 => d.1.val) heq
    have e2 : (shaTuple La).2.1 % w32 = (shaTuple Lb).2.1 % w32 :=
      congrArg (fun d : Digest8 => d.2.1.val) heq
    have e3 : (shaTuple La).2.2.1 % w32 = (shaTuple Lb).2.2.1 % w32 :=
      congrArg (fun d : Digest8 => d.2.2.1.val) heq
    have e4 : (shaTuple La).2.2.2.1 % w32 = (shaTuple Lb).2.2.2.1 % w32 :=
      congrArg (fun d : Digest8 => d.2.2.2.1.val) heq
    have e5 : (shaTuple La).2.2.2.2.1 % w32 = (shaTuple Lb).2.2.2.2.1 % w32 :=
      congrArg (fun d : Digest8 => d.2.2.2.2.1.val) heq
    have e6 : (shaTuple La).2.2.2.2.2.1 % w32 = (shaTuple Lb).2.2.2.2.2.1 % w32 :=
      congrArg (fun d : Digest8 => d.2.2.2.2.2.1.val) heq
    have e7 : (shaTuple La).2.2.2.2.2.2.1 % w32 = (shaTuple Lb).2.2.2.2.2.2.1 % w32 :=
      congrArg (fun d : Digest8 => d.2.2.2.2.2.2.1.val) heq
    have e8 : (shaTuple La).2.2.2.2.2.2.2 % w32 = (shaTuple Lb).2.2.2.2.2.2.2 % w32 :=
      congrArg (fun d : Digest8 => d.2.2.2.2.2.2.2.val) heq
    rw [Nat.mod_eq_of_lt hba.1, Nat.mod_eq_of_lt hbb.1] at e1
    rw [Nat.mod_eq_of_lt hba.2.1, Nat.mod_eq_of_lt hbb.2.1] at e2
    rw [Nat.mod_eq_of_lt hba.2.2.1, Nat.mod_eq_of_lt hbb.2.2.1] at e3
    rw [Nat.mod_eq_of_lt hba.2.2.2.1, Nat.mod_eq_of_lt hbb.2.2.2.1] at e4
    rw [Nat.mod_eq_of_lt hba.2.2.2.2.1, Nat.mod_eq_of_lt hbb.2.2.2.2.1] at e5
    rw [Nat.mod_eq_of_lt hba.2.2.2.2.2.1, Nat.mod_eq_of_lt hbb.2.2.2.2.2.1] at e6
    rw [Nat.mod_eq_of_lt hba.2.2.2.2.2.2.1, Nat.mod_eq_of_lt hbb.2.2.2.2.2.2.1] at e7
    rw [Nat.mod_eq_of_lt hba.2.2.2.2.2.2.2, Nat.mod_eq_of_lt hbb.2.2.2.2.2.2.2] at e8
    have ht : shaTuple La = shaTuple Lb :=
      Prod.ext e1 (Prod.ext e2 (Prod.ext e3 (Prod.ext e4
        (Prod.ext e5 (Prod.ext e6 (Prod.ext e7 e8))))))
    exact congrArg tupleHex ht

theorem hashFilePath_not_included : includedInManifest hashFilePath = false := by decide

theorem create_table_append (l₁ l₂ : List (List String × List Nat)) :
    create_file_hash_table (l₁ ++ l₂) =
      create_file_hash_table l₁ ++ create_file_hash_table l₂ := by
  induction l₁ with
  | nil => rfl
  | cons e rest ih =>
    by_cases he : includedInManifest e.1
    · simp [create_file_hash_table, he, ih]
    · simp [create_file_hash_table, he, ih]

theorem create_table_map_overwrite (l : List (List String × List Nat))
    (p : List String) (b : List Nat) (hp : includedInManifest p = false) :
    create_file_hash_table (l.map (fun e => if e.1 = p then (p, b) else e)) =
      create_file_hash_table l := by
  induction l with
  | nil => rfl
  | cons e rest ih =>
    by_cases he : e.1 = p
    · simp only [List.map_cons, if_pos he]
      rw [create_file_hash_table, create_file_hash_table]
      rw [if_neg (by simp [hp]), if_neg (by simp [he ▸ hp])]
      exact ih
    · simp only [List.map_cons, if_neg he]
      rw [create_file_hash_table, create_file_hash_table]
      by_cases hi : includedInManifest e.1
      · rw [if_pos hi, if_pos hi, ih]
      · rw [if_neg hi, if_neg hi]
        exact ih

/-- Writing the (ignored) hash file does not change the manifest. -/
theorem create_table_setKey_hashFile (fs : List (List String × List Nat))
    (b : List Nat) :
    create_file_hash_table (setKey fs hashFilePath b) = create_file_hash_table fs := by
  unfold setKey
  by_cases h : fs.any (fun e => decide (e.1 = hashFilePath))
  · rw [if_pos h]
    exact create_table_map_overwrite fs hashFilePath b hashFilePath_not_included
  · rw [if_neg h, create_table_append]
    rw [create_file_hash_table, if_neg (by simp [hashFilePath_not_included])]
    simp [create_file_hash_table]

theorem manifest_locality (pre post : List (List String × List Nat))
    (p : List String) (ob nb : List Nat) (q : List String) (hq : q ≠ p) :
    getVal (create_file_hash_table (pre ++ (p, nb) :: post)) q =
      getVal (create_file_hash_table (pre ++ (p, ob) :: post)) q := by
  induction pre with
  | nil =>
    simp only [List.nil_append]
    by_cases hp : includedInManifest p
    · rw [create_file_hash_table, create_file_hash_table, if_pos hp, if_pos hp]
      rw [getVal, getVal, if_neg (Ne.symm hq), if_neg (Ne.symm hq)]
    · rw [create_file_hash_table, create_file_hash_table, if_neg hp, if_neg hp]
  | cons e rest ih =>
    simp only [List.cons_append]
    by_cases he : includedInManifest e.1
    · rw [create_file_hash_table, create_file_hash_table, if_pos he, if_pos he]
      by_cases hk : e.1 = q
      · rw [getVal, getVal, if_pos hk, if_pos hk]
      · rw [getVal, getVal, if_neg hk, if_neg hk]
        exact ih
    · rw [create_file_hash_table, create_file_hash_table, if_neg he, if_neg he]
      exact ih

theorem manifest_sensitivity (pre post : List (List String × List Nat))
    (p : List String) (ob nb : List Nat)
    (hpre : p ∉ pre.map Prod.fst)
    (hincl : includedInManifest p = true)
    (hsha : sha256hex nb ≠ sha256hex ob) :
    getVal (create_file_hash_table (pre ++ (p, nb) :: post)) p ≠
      getVal (create_file_hash_table (pre ++ (p, ob) :: post)) p := by
  induction pre with
  | nil =>
    simp only [List.nil_append]
    rw [create_file_hash_table, create_file_hash_table, if_pos hincl, if_pos hincl]
    rw [getVal, getVal, if_pos rfl, if_pos rfl]
    simpa using hsha
  | cons e rest ih =>
    have hne : e.1 ≠ p := by
      intro hcontra
      exact hpre (by simp [← hcontra])
    have hrest : p ∉ rest.map Prod.fst := by
      intro hcontra
      exact hpre (by simp [hcontra])
    simp only [List.cons_append]
    by_cases he : includedInManifest e.1
    · rw [create_file_hash_table, create_file_hash_table, if_pos he, if_pos he]
      rw [getVal, getVal, if_neg hne, if_neg hne]
      exact ih hrest
    · rw [create_file_hash_table, create_file_hash_table, if_neg he, if_neg he]
      exact ih hrest

/-- C4 (counterexample): the claim says `checkForUpdate` mutates no
persistent state and never persists the manifest; but on the empty
updater directory one call to `Updater.check_for_updates` writes the
manifest file `file_hashes.json` (with the empty JSON object), changing
the persistent state. -/
theorem C4_counterexample :
    (check_for_updates_run ServerReply.noReply ⟨[]⟩).2 ≠ ⟨[]⟩ ∧
    getVal ((check_for_updates_run ServerReply.noReply ⟨[]⟩).2.files) hashFilePath =
      some (strBytes "\x7b\x7d") := by
  decide

/-- C4 (amended): every `check_for_updates` call persists the manifest
to `file_hashes.json` — this write is its only filesystem mutation — and
over an unchanged tree the write is idempotent: after the first check
the state is a fixed point, and the returned result is unchanged. -/
theorem C4_check_state_effect :
    ∀ (env : ServerReply) (s : UpdaterState),
      (check_for_updates_run env s).2.files =
        setKey s.files hashFilePath
          (strBytes (jsonOfTable (create_file_hash_table s.files))) ∧
      (check_for_updates_run env ((check_for_updates_run env s).2)).2 =
        (check_for_updates_run env s).2 ∧
      (check_for_updates_run env ((check_for_updates_run env s).2)).1 =
        (check_for_updates_run env s).1 := by
  intro env s
  have hstate : ∀ (e' : ServerReply) (s' : UpdaterState),
      (check_for_updates_run e' s').2 =
        ⟨setKey s'.files hashFilePath
          (strBytes (jsonOfTable (create_file_hash_table s'.files)))⟩ := by
    intro e' s'
    cases e' with
    | noReply => rfl
    | reply ua v => cases ua <;> rfl
  have htbl : create_file_hash_table
      (setKey s.files hashFilePath
        (strBytes (jsonOfTable (create_file_hash_table s.files)))) =
      create_file_hash_table s.files := create_table_setKey_hashFile _ _
  refine ⟨?_, ?_, ?_⟩
  · rw [hstate]
  · rw [hstate env s, hstate env
      ⟨setKey s.files hashFilePath
        (strBytes (jsonOfTable (create_file_hash_table s.files)))⟩]
    have hfiles : (UpdaterState.mk
        (setKey s.files hashFilePath
          (strBytes (jsonOfTable (create_file_hash_table s.files))))).files =
        setKey s.files hashFilePath
          (strBytes (jsonOfTable (create_file_hash_table s.files))) := rfl
    rw [hfiles, htbl]
    rw [setKey_setKey_same]
  · rw [hstate env s]
    cases env with
    | noReply => rfl
    | reply ua v => cases ua <;> rfl

/-- C6 (counterexample): the claim's "a manifest entry's hash value
changes if and only if the bytes of that file change" fails in the
"if" direction: SHA-256 is not injective (pigeonhole over 33-byte
messages), so there are two different byte contents for `a.txt` whose
manifest entries coincide. -/
theorem C6_counterexample :
    ¬ ∀ (c₁ c₂ : List Nat),
        create_file_hash_table [(["a.txt"], c₁)] =
          create_file_hash_table [(["a.txt"], c₂)] → c₁ = c₂ := by
  intro hall
  obtain ⟨m₁, m₂, hne, heq⟩ := sha256_collision
  apply hne
  apply hall
  have h1 : includedInManifest ["a.txt"] = true := by decide
  simp only [create_file_hash_table, h1, if_true, heq]

/-- C6 (amended): manifest entries are deterministic and local — a
second run over unchanged bytes (even after the first run persisted
`file_hashes.json`) yields identical entries; replacing one file's
bytes leaves every other file's entry unchanged, leaves everything
unchanged when the bytes are equal, and changes that file's own entry
whenever the SHA-256 digests of the old and new bytes differ (which is
the case for all practical byte changes, though not literally for all,
since SHA-256 is not injective). -/
theorem C6_manifest_stable :
    (∀ s : UpdaterState,
        (create_file_hash_table_run ((create_file_hash_table_run s).2)).1 =
          (create_file_hash_table_run s).1) ∧
    (∀ (pre post : List (List String × List Nat)) (p : List String)
        (ob nb : List Nat),
      (nb = ob →
        create_file_hash_table (pre ++ (p, nb) :: post) =
          create_file_hash_table (pre ++ (p, ob) :: post)) ∧
      (∀ q, q ≠ p →
        getVal (create_file_hash_table (pre ++ (p, nb) :: post)) q =
          getVal (create_file_hash_table (pre ++ (p, ob) :: post)) q) ∧
      (p ∉ pre.map Prod.fst → includedInManifest p = true →
        sha256hex nb ≠ sha256hex ob →
        getVal (create_file_hash_table (pre ++ (p, nb) :: post)) p ≠
          getVal (create_file_hash_table (pre ++ (p, ob) :: post)) p)) := by
  constructor
  · intro s
    show create_file_hash_table
        (setKey s.files hashFilePath
          (strBytes (jsonOfTable (create_file_hash_table s.files)))) =
      create_file_hash_table s.files
    exact create_table_setKey_hashFile _ _
  · intro pre post p ob nb
    refine ⟨?_, ?_, ?_⟩
    · intro h
      rw [h]
    · intro q hq
      exact manifest_locality pre post p ob nb q hq
    · intro hpre hincl hsha
      exact manifest_sensitivity pre post p ob nb hpre hincl hsha

/-- C6 (witness): the amended theorem applied to the two-file tree
`a.txt ↦ [0]`, `b.txt ↦ [1]`, replacing `a.txt`'s content by `[2]`. -/
theorem C6_manifest_stable_witness :
    (getVal (create_file_hash_table ([] ++ (["a.txt"], [2]) :: [(["b.txt"], [1])]))
        ["b.txt"] =
      getVal (create_file_hash_table ([] ++ (["a.txt"], [0]) :: [(["b.txt"], [1])]))
        ["b.txt"]) ∧
    (getVal (create_file_hash_table ([] ++ (["a.txt"], [2]) :: [(["b.txt"], [1])]))
        ["a.txt"] ≠
      getVal (create_file_hash_table ([] ++ (["a.txt"], [0]) :: [(["b.txt"], [1])]))
        ["a.txt"]) :=
  ⟨(C6_manifest_stable.2 [] [(["b.txt"], [1])] ["a.txt"] [0] [2]).2.1 ["b.txt"]
      (by decide),
   (C6_manifest_stable.2 [] [(["b.txt"], [1])] ["a.txt"] [0] [2]).2.2
      (by decide) (by decide) (by decide)⟩

theorem mem_setKey_cases [DecidableEq α] (l : List (α × β)) (k : α) (v : β)
    (e : α × β) (he : e ∈ setKey l k v) : e ∈ l ∨ e = (k, v) := by
  unfold setKey at he
  by_cases h : l.any (fun e => decide (e.1 = k))
  · rw [if_pos h, List.mem_map] at he
    obtain ⟨a, ha, hae⟩ := he
    by_cases h1 : a.1 = k
    · rw [if_pos h1] at hae
      exact Or.inr hae.symm
    · rw [if_neg h1] at hae
      exact Or.inl (hae ▸ ha)
  · rw [if_neg h, List.mem_append] at he
    rcases he with he | he
    · exact Or.inl he
    · exact Or.inr (by simpa using he)

/-- Every path in an extracted tree is a sanitized component list. -/
theorem extractall_paths_clean (es : List (String × String)) (e : List String × String)
    (he : e ∈ extractall es) :
    ∀ c ∈ e.1, ¬(c = "" ∨ c = "." ∨ c = "..") := by
  have main : ∀ (es : List (String × String)) (t : FileTree),
      (∀ e ∈ t, ∀ c ∈ e.1, ¬(c = "" ∨ c = "." ∨ c = "..")) →
      ∀ e ∈ es.foldl
        (fun t e => if strEndsWith e.1 "/" then t else setKey t (zipEntryPath e.1) e.2) t,
        ∀ c ∈ e.1, ¬(c = "" ∨ c = "." ∨ c = "..") := by
    intro es
    induction es with
    | nil => intro t ht e he; exact ht e he
    | cons a rest ih =>
      intro t ht e he
      rw [List.foldl_cons] at he
      refine ih _ ?_ e he
      intro e' he' c hc
      by_cases hd : strEndsWith a.1 "/"
      · rw [if_pos hd] at he'
        exact ht e' he' c hc
      · rw [if_neg hd] at he'
        rcases mem_setKey_cases t (zipEntryPath a.1) a.2 e' he' with hmem | hkv
        · exact ht e' hmem c hc
        · have hc' : c ∈ zipEntryPath a.1 := by rw [hkv] at hc; exact hc
          have := List.of_mem_filter hc'
          intro habs
          rw [Bool.not_eq_true'] at this
          rcases habs with h | h | h <;> simp [h] at this
  exact main es [] (by intro e he; simp at he) e he

theorem applyUpdate_isSome (tree : FileTree) (live : List (String × String))
    (k : String) (h : (getVal live k).isSome) :
    (getVal (applyUpdate tree live) k).isSome := by
  induction tree generalizing live with
  | nil => exact h
  | cons e rest ih =>
    have hstep : applyUpdate (e :: rest) live =
        applyUpdate rest
          (match e.1 with
           | [n] => setKey live n e.2
           | _ => live) := rfl
    rw [hstep]
    cases hp : e.1 with
    | nil => exact ih live h
    | cons n tail =>
      cases tail with
      | nil =>
        refine ih (setKey live n e.2) ?_
        by_cases hk : n = k
        · rw [hk, getVal_setKey_self]
          rfl
        · rw [getVal_setKey_ne live n k e.2 hk]
          exact h
      | cons m tail₂ => exact ih live h

/-- C1 (counterexample): a successful cycle (ticket consumed, package
consumed, service restarted) whose promoted package contained
`version.txt` with content `"1.2.3\n"`: the re-check compares *stripped*
values, sees a match, and leaves the file as `"1.2.3\n"`, which is not
exactly the target string `"1.2.3"` read from the ticket. -/
theorem C1_counterexample :
    (runCycle supEnvOk supStateC1).flag = none ∧
    (runCycle supEnvOk supStateC1).zipFile = none ∧
    (runCycle supEnvOk supStateC1).serviceRunning = true ∧
    getVal (runCycle supEnvOk supStateC1).live "version.txt" = some "1.2.3\n" ∧
    "1.2.3\n" ≠ "1.2.3" := by
  decide

/-- C1 (amended): after every successful cycle (valid package, service
stop and start succeed) the ticket and package are consumed, the
service is running, and the version marker's *whitespace-stripped*
content is exactly the stripped target version read from the ticket;
when the stripped content would differ (e.g. the package shipped a
different version marker), the supervisor rewrites the file to the
exact target string. -/
theorem C1_version_after_cycle :
    ∀ (env : SupEnv) (s : SupState) (fc : String) (ar : Archive),
      s.flag = some fc → s.zipFile = some ar → validate_zip_file ar = true →
      env.stopOk = true → env.startOk = true →
      (runCycle env s).flag = none ∧ (runCycle env s).zipFile = none ∧
      (runCycle env s).serviceRunning = true ∧
      ((getVal (runCycle env s).live "version.txt").map pyStrip =
        some (pyStrip fc)) := by
  intro env s fc ar hflag hzip hval hstop hstart
  obtain ⟨f, z, lv, ex, bk, sv⟩ := s
  obtain ⟨so, st⟩ := env
  change f = some fc at hflag
  change z = some ar at hzip
  change so = true at hstop
  change st = true at hstart
  subst hflag hzip hstop hstart
  simp only [runCycle, hval, Bool.true_eq_false, if_false, if_true, reduceIte, create_backup]
  refine ⟨trivial, trivial, trivial, ?_⟩
  set live₂ := applyUpdate (extractall ar.entriesOf) (setKey lv "version.txt" (pyStrip fc)) with hlive₂
  have hsome : (getVal live₂ "version.txt").isSome := by
    refine applyUpdate_isSome _ _ _ ?_
    rw [getVal_setKey_self]
    rfl
  by_cases hcond : pyStrip ((getVal live₂ "version.txt").getD "") ≠ pyStrip fc
  · rw [if_pos hcond, getVal_setKey_self]
    show some (pyStrip (pyStrip fc)) = some (pyStrip fc)
    rw [pyStrip_idem]
  · rw [if_neg hcond]
    push_neg at hcond
    obtain ⟨c, hc⟩ := Option.isSome_iff_exists.mp hsome
    rw [hc] at hcond ⊢
    change pyStrip c = pyStrip fc at hcond
    show some (pyStrip c) = some (pyStrip fc)
    rw [hcond]

/-- C1 (witness): the amended theorem at the concrete C1 state. -/
theorem C1_version_after_cycle_witness :
    (runCycle supEnvOk supStateC1).flag = none ∧
    (runCycle supEnvOk supStateC1).zipFile = none ∧
    (runCycle supEnvOk supStateC1).serviceRunning = true ∧
    ((getVal (runCycle supEnvOk supStateC1).live "version.txt").map pyStrip =
      some (pyStrip "1.2.3")) :=
  C1_version_after_cycle supEnvOk supStateC1 "1.2.3"
    (Archive.wellFormed [("main.py", "new code"), ("version.txt", "1.2.3\n")])
    rfl rfl (by decide) rfl rfl

/-- C2: when the staged package is valid but `nssm stop` fails, the
`CalledProcessError` handler runs, the ticket stays in place for the
next poll, and neither the live files, nor the package, nor the staging
directory are touched. -/
theorem C2_stop_failure_preserves :
    ∀ (env : SupEnv) (s : SupState) (fc : String) (ar : Archive),
      s.flag = some fc → s.zipFile = some ar → validate_zip_file ar = true →
      env.stopOk = false →
      (runCycle env s).flag = some fc ∧ (runCycle env s).live = s.live ∧
      (runCycle env s).zipFile = some ar ∧
      (runCycle env s).extractDir = s.extractDir := by
  intro env s fc ar hflag hzip hval hstop
  obtain ⟨f, z, lv, ex, bk, sv⟩ := s
  obtain ⟨so, st⟩ := env
  change f = some fc at hflag
  change z = some ar at hzip
  change so = false at hstop
  subst hflag hzip hstop
  cases st <;> simp [runCycle, hval, create_backup]

/-- C2 (witness): the C2 theorem at the concrete C1 state with a
failing service stop. -/
theorem C2_stop_failure_preserves_witness :
    (runCycle supEnvStopFail supStateC1).flag = some "1.2.3" ∧
    (runCycle supEnvStopFail supStateC1).live = supStateC1.live ∧
    (runCycle supEnvStopFail supStateC1).zipFile =
      some (Archive.wellFormed [("main.py", "new code"), ("version.txt", "1.2.3\n")]) ∧
    (runCycle supEnvStopFail supStateC1).extractDir = supStateC1.extractDir :=
  C2_stop_failure_preserves supEnvStopFail supStateC1 "1.2.3"
    (Archive.wellFormed [("main.py", "new code"), ("version.txt", "1.2.3\n")])
    rfl rfl (by decide) rfl

/-- C3 (counterexample): `check_updates` checks only that the download
exists and is non-empty before writing the ticket, so a corrupt
non-empty archive *does* create a `PendingUpdateTicket`, contradicting
"never creates a PendingUpdateTicket". -/
theorem C3_counterexample :
    validate_zip_file (Archive.corrupt 10) = false ∧
    (check_updates netEnvC3 supStateC3).flag = some "2.0" ∧
    (check_updates netEnvC3 supStateC3).zipFile = some (Archive.corrupt 10) := by
  decide

/-- C3 (amended): a corrupted download (not a well-formed zip, or
lacking `main.py`) may leave a ticket behind after the update check,
but the next supervisor poll validates the package, discards both the
archive and the ticket, and touches neither the live tree, nor the
service, nor the backups: after the check plus one poll no ticket
exists. -/
theorem C3_corrupt_download_cleared_by_poll :
    ∀ (net : NetEnv) (env : SupEnv) (s : SupState) (ar : Archive),
      s.flag = none → s.zipFile = none →
      net.download = some ar → validate_zip_file ar = false →
      (runCycle env (check_updates net s)).flag = none ∧
      (runCycle env (check_updates net s)).zipFile = none ∧
      (runCycle env (check_updates net s)).live = s.live ∧
      (runCycle env (check_updates net s)).serviceRunning = s.serviceRunning ∧
      (runCycle env (check_updates net s)).backups = s.backups := by
  intro net env s ar hflag hzip hdl hval
  cases hv : getVal s.live "version.txt" with
  | none => simp [check_updates, hv, runCycle, hflag, hzip]
  | some lv =>
    cases hsv : net.serverVersion with
    | none => simp [check_updates, hv, hsv, runCycle, hflag, hzip]
    | some sv =>
      by_cases hne : sv ≠ pyStrip lv
      · by_cases hsz : ar.byteSize = 0
        · simp [check_updates, hv, hsv, hdl, hne, hsz, runCycle, hflag]
        · simp only [check_updates, hv, hsv, hdl]
          rw [if_pos hne, if_neg hsz]
          simp only [runCycle]
          rw [if_pos hval]
          simp
      · simp [check_updates, hv, hsv, hne, runCycle, hflag, hzip]

/-- C3 (witness): the amended theorem at the concrete C3 state. -/
theorem C3_corrupt_download_cleared_by_poll_witness :
    (runCycle supEnvOk (check_updates netEnvC3 supStateC3)).flag = none ∧
    (runCycle supEnvOk (check_updates netEnvC3 supStateC3)).zipFile = none ∧
    (runCycle supEnvOk (check_updates netEnvC3 supStateC3)).live = supStateC3.live ∧
    (runCycle supEnvOk (check_updates netEnvC3 supStateC3)).serviceRunning =
      supStateC3.serviceRunning ∧
    (runCycle supEnvOk (check_updates netEnvC3 supStateC3)).backups =
      supStateC3.backups :=
  C3_corrupt_download_cleared_by_poll netEnvC3 supEnvOk supStateC3
    (Archive.corrupt 10) rfl rfl rfl (by decide)

/-- C5: extraction writes only below the staging root — every path an
archive can make `extractall` create is the staging root followed by
sanitized components, none of which is empty, `.`, or `..`; entries
with traversal sequences are neutralized by the member-name
sanitization. -/
theorem C5_extraction_stays_in_root :
    ∀ (root : List String) (es : List (String × String)) (p : List String),
      p ∈ extractedPaths root es →
      ∃ rest, p = root ++ rest ∧ ∀ c ∈ rest, ¬(c = "" ∨ c = "." ∨ c = "..") := by
  intro root es p hp
  rw [extractedPaths, List.mem_map] at hp
  obtain ⟨e, he, hpe⟩ := hp
  exact ⟨e.1, hpe.symm, extractall_paths_clean es e he⟩

/-- C5 (witness): a traversal entry `../../etc/passwd` lands at
`stage/etc/passwd`, inside the staging root. -/
theorem C5_extraction_stays_in_root_witness :
    ∃ rest, (["stage", "etc", "passwd"] : List String) = ["stage"] ++ rest ∧
      ∀ c ∈ rest, ¬(c = "" ∨ c = "." ∨ c = "..") :=
  C5_extraction_stays_in_root ["stage"] [("../../etc/passwd", "x")]
    ["stage", "etc", "passwd"] (by decide)

theorem unknown_prefix_ne_empty (t : String) :
    ("Unknown command type: " ++ t) ≠ "" := by
  intro h
  have hlen := congrArg String.length h
  rw [String.length_append] at hlen
  have h22 : ("Unknown command type: " : String).length = 22 := by decide
  have h0 : ("" : String).length = 0 := by decide
  rw [h22, h0] at hlen
  omega

/-- C10: whenever `send_command_result` posts a payload, the payload
carries `command_id` and `completed_at`, never both `output` and
`error`; the error field is present exactly when the error argument is
a non-empty string, and the output field only when output was given
and no error was. -/
theorem C10_result_payload_shape :
    ∀ (command_id now : String) (error output : Option String) (p : ResultPayload),
      send_command_result command_id error output now = some p →
      p.command_id = command_id ∧ p.completed_at = now ∧
      ¬(p.error ≠ none ∧ p.output ≠ none) ∧
      (p.error ≠ none ↔ errTruthy error = true) ∧
      (p.output ≠ none → output ≠ none ∧ errTruthy error = false) := by
  intro cid now error output p hp
  unfold send_command_result at hp
  by_cases hcid : cid = ""
  · rw [if_pos hcid] at hp
    exact absurd hp (by simp)
  · rw [if_neg hcid] at hp
    injection hp with hp'
    subst hp'
    by_cases he : errTruthy error = true
    · cases error with
      | none => simp [errTruthy] at he
      | some s =>
        refine ⟨rfl, rfl, ?_, ?_, ?_⟩ <;> simp [he]
    · rw [Bool.not_eq_true] at he
      refine ⟨rfl, rfl, ?_, ?_, ?_⟩ <;>
        cases output <;> simp [he]

/-- C10 (witness): a successful result for command `c1`. -/
theorem C10_result_payload_shape_witness :
    (⟨"c1", "t0", none, some "ok"⟩ : ResultPayload).command_id = "c1" ∧
    (⟨"c1", "t0", none, some "ok"⟩ : ResultPayload).completed_at = "t0" ∧
    ¬((⟨"c1", "t0", none, some "ok"⟩ : ResultPayload).error ≠ none ∧
      (⟨"c1", "t0", none, some "ok"⟩ : ResultPayload).output ≠ none) ∧
    ((⟨"c1", "t0", none, some "ok"⟩ : ResultPayload).error ≠ none ↔
      errTruthy none = true) ∧
    ((⟨"c1", "t0", none, some "ok"⟩ : ResultPayload).output ≠ none →
      (some "ok" : Option String) ≠ none ∧ errTruthy none = false) :=
  C10_result_payload_shape "c1" "t0" none (some "ok")
    ⟨"c1", "t0", none, some "ok"⟩ (by decide)

/-- C8: a command whose trimmed, upper-cased type matches no known kind
is a handled failure: `process_command` returns normally with
`success = False`, the posted CommandResult's error carries the
original type string (posted whenever a `command_id` is present), and
the consumer goes on to the next delivery. -/
theorem C8_unknown_type_handled :
    ∀ (env : HandlerEnv) (m : CmdMsg) (rest : List InboundBody),
      pyUpper (pyStrip m.type) ∉ knownCommandTypes →
      process_command env m =
        .done false
          (send_command_result m.command_id
            (some ("Unknown command type: " ++ m.type)) none env.now) ∧
      (∀ p, send_command_result m.command_id
          (some ("Unknown command type: " ++ m.type)) none env.now = some p →
        p.error = some ("Unknown command type: " ++ m.type)) ∧
      (m.command_id ≠ "" →
        send_command_result m.command_id
          (some ("Unknown command type: " ++ m.type)) none env.now ≠ none) ∧
      consumeLoop env (.msg m :: rest) =
        command_callback env (.msg m) :: consumeLoop env rest := by
  intro env m rest hnot
  have h1 : pyUpper (pyStrip m.type) ≠ "UPDATE" := fun he => hnot (by rw [he]; decide)
  have h2 : pyUpper (pyStrip m.type) ≠ "FIREWALL_ON" := fun he => hnot (by rw [he]; decide)
  have h3 : pyUpper (pyStrip m.type) ≠ "FIREWALL_OFF" := fun he => hnot (by rw [he]; decide)
  have h4 : pyUpper (pyStrip m.type) ≠ "BLOCK_WEBSITE" := fun he => hnot (by rw [he]; decide)
  have h5 : pyUpper (pyStrip m.type) ≠ "UNBLOCK_WEBSITE" := fun he => hnot (by rw [he]; decide)
  have h6 : pyUpper (pyStrip m.type) ≠ "DOWNLOAD_INSTALLER" := fun he => hnot (by rw [he]; decide)
  have h7 : pyUpper (pyStrip m.type) ≠ "SCREENSHOT" := fun he => hnot (by rw [he]; decide)
  have h8 : pyUpper (pyStrip m.type) ≠ "CUSTOM" := fun he => hnot (by rw [he]; decide)
  have hdisp : process_command env m =
      .done false
        (send_command_result m.command_id
          (some ("Unknown command type: " ++ m.type)) none env.now) := by
    simp only [process_command]
    rw [if_neg h1, if_neg h2, if_neg h3, if_neg h4, if_neg h5, if_neg h6,
      if_neg h7, if_neg h8]
    rfl
  refine ⟨hdisp, ?_, ?_, ?_⟩
  · intro p hp
    unfold send_command_result at hp
    by_cases hcid : m.command_id = ""
    · rw [if_pos hcid] at hp
      exact absurd hp (by simp)
    · rw [if_neg hcid] at hp
      injection hp with hp'
      subst hp'
      have hne := unknown_prefix_ne_empty m.type
      simp [errTruthy, hne]
  · intro hcid
    unfold send_command_result
    rw [if_neg hcid]
    simp
  · have heff : (command_callback env (.msg m)).exited = false := by
      simp [command_callback, hdisp]
    simp only [consumeLoop]
    rw [if_neg (by rw [heff]; simp)]

/-- C7 (amended): a delivery whose processing returns (normally or via
a caught `Exception`/decode error) is acknowledged exactly once; a
malformed (non-JSON) payload is dropped without dispatching and still
acknowledged; but a dispatch that raises `SystemExit` (the update
path's `sys.exit`) escapes `command_callback` without acknowledging. -/
theorem C7_ack_exactly_once_unless_exit :
    ∀ (env : HandlerEnv) (b : InboundBody),
      ((command_callback env b).exited = false →
        (command_callback env b).acks = 1) ∧
      ((command_callback env b).exited = true →
        (command_callback env b).acks = 0) ∧
      (∀ raw, b = .notJson raw →
        (command_callback env b).acks = 1 ∧
        (command_callback env b).handled = none) := by
  intro env b
  cases b with
  | notUtf8 =>
    refine ⟨fun _ => rfl, fun h => ?_, fun raw h => by cases h⟩
    simp [command_callback] at h
  | notJson raw =>
    exact ⟨fun _ => rfl, fun h => by simp [command_callback] at h,
      fun raw' h => ⟨rfl, rfl⟩⟩
  | msg m =>
    cases hp : process_command env m with
    | exited =>
      refine ⟨fun h => ?_, fun _ => by simp [command_callback, hp],
        fun raw h => by cases h⟩
      simp [command_callback, hp] at h
    | done s r =>
      refine ⟨fun _ => by simp [command_callback, hp],
        fun h => ?_, fun raw h => by cases h⟩
      simp [command_callback, hp] at h

/-- C7 (counterexample): an `UPDATE` command that stages an update
makes `check_updates` call `sys.exit(0)`; `SystemExit` is not caught by
any `except Exception`, so the delivery is never acknowledged —
refuting "acknowledged exactly once ... including when the handler
raises an unhandled exception". -/
theorem C7_counterexample :
    (command_callback handlerEnvExit (InboundBody.msg updateMsg)).acks = 0 ∧
    (command_callback handlerEnvExit (InboundBody.msg updateMsg)).exited = true := by
  decide

/-- C7 (witness): a malformed payload is dropped and acknowledged. -/
theorem C7_ack_exactly_once_unless_exit_witness :
    (command_callback handlerEnvExit (InboundBody.notJson "oops")).acks = 1 ∧
    (command_callback handlerEnvExit (InboundBody.notJson "oops")).handled = none :=
  (C7_ack_exactly_once_unless_exit handlerEnvExit (InboundBody.notJson "oops")).2.2
    "oops" rfl

/-- C8 (witness): the unknown type `FOO` at a concrete environment. -/
theorem C8_unknown_type_handled_witness :
    process_command handlerEnvNoExit fooMsg =
      .done false
        (send_command_result "id-1"
          (some ("Unknown command type: " ++ "FOO")) none
          "2025-01-01T00:00:00.000Z") ∧
    (∀ p, send_command_result "id-1"
        (some ("Unknown command type: " ++ "FOO")) none
        "2025-01-01T00:00:00.000Z" = some p →
      p.error = some ("Unknown command type: " ++ "FOO")) ∧
    (("id-1" : String) ≠ "" →
      send_command_result "id-1"
        (some ("Unknown command type: " ++ "FOO")) none
        "2025-01-01T00:00:00.000Z" ≠ none) ∧
    consumeLoop handlerEnvNoExit [.msg fooMsg] =
      command_callback handlerEnvNoExit (.msg fooMsg) ::
        consumeLoop handlerEnvNoExit [] :=
  C8_unknown_type_handled handlerEnvNoExit fooMsg [] (by decide)

theorem listStartsWith_append_self [DecidableEq α] (n x : List α) :
    listStartsWith n (n ++ x) = true := by
  induction n with
  | nil => rfl
  | cons a as ih => simp [listStartsWith, ih]

theorem listStartsWith_weaken [DecidableEq α] (n h x : List α)
    (hs : listStartsWith n h = true) : listStartsWith n (h ++ x) = true := by
  induction n generalizing h with
  | nil => rfl
  | cons a as ih =>
    cases h with
    | nil => simp [listStartsWith] at hs
    | cons b bs =>
      simp only [listStartsWith, Bool.and_eq_true] at hs ⊢
      exact ⟨hs.1, ih bs hs.2⟩

theorem occursIn_nil_needle (l : List Char) : occursIn [] l = true := by
  induction l with
  | nil => rfl
  | cons c r ih => simp [occursIn, listStartsWith]

theorem occursIn_append_right (n h x : List Char)
    (ho : occursIn n h = true) : occursIn n (h ++ x) = true := by
  induction h with
  | nil =>
    cases n with
    | nil => simpa using occursIn_nil_needle x
    | cons a as => simp [occursIn, listStartsWith] at ho
  | cons c r ih =>
    simp only [occursIn, Bool.or_eq_true] at ho
    rcases ho with ho | ho
    · simp only [List.cons_append, occursIn, Bool.or_eq_true]
      exact Or.inl (by simpa using listStartsWith_weaken n (c :: r) x ho)
    · simp only [List.cons_append, occursIn, Bool.or_eq_true]
      exact Or.inr (ih ho)

theorem occursIn_prepend (n x h : List Char)
    (ho : occursIn n h = true) : occursIn n (x ++ h) = true := by
  induction x with
  | nil => simpa using ho
  | cons c r ih =>
    simp only [List.cons_append, occursIn, Bool.or_eq_true]
    exact Or.inr ih

theorem occursIn_self_append (n x : List Char) : occursIn n (n ++ x) = true := by
  cases n with
  | nil => simpa using occursIn_nil_needle x
  | cons a as =>
    simp only [List.cons_append, occursIn, Bool.or_eq_true]
    exact Or.inl (by
      have := listStartsWith_append_self (a :: as) x
      simpa using this)

theorem mem_flatten_decomp (L : List (List Char)) (l : List Char) (hl : l ∈ L) :
    ∃ s t, L.flatten = s ++ (l ++ t) := by
  induction L with
  | nil => simp at hl
  | cons a as ih =>
    rcases List.mem_cons.mp hl with h | h
    · exact ⟨[], as.flatten, by simp [h]⟩
    · obtain ⟨s, t, hst⟩ := ih h
      exact ⟨a ++ s, t, by simp [hst]⟩

theorem readlinesAux_flatten (c : List Char) :
    ∀ acc, (readlinesAux c acc).flatten = acc.reverse ++ c := by
  induction c with
  | nil =>
    intro acc
    by_cases ha : acc.isEmpty
    · simp [readlinesAux, ha, List.isEmpty_iff.mp ha]
    · simp [readlinesAux, ha]
  | cons c rest ih =>
    intro acc
    by_cases hc : c = '\n'
    · simp [readlinesAux, hc, ih]
    · simp [readlinesAux, hc, ih (c :: acc)]

theorem readlines_flatten (content : List Char) :
    (readlines content).flatten = content := by
  simpa using readlinesAux_flatten content []

theorem occursIn_of_mem_lines (n content l : List Char)
    (hl : l ∈ readlines content) (ho : occursIn n l = true) :
    occursIn n content = true := by
  obtain ⟨s, t, hst⟩ := mem_flatten_decomp (readlines content) l hl
  rw [readlines_flatten] at hst
  rw [hst]
  exact occursIn_prepend n s _ (occursIn_append_right n l t ho)

theorem readlinesAux_nl (rest acc : List Char) :
    readlinesAux ('\n' :: rest) acc = (acc.reverse ++ ['\n']) :: readlinesAux rest [] := by
  rw [readlinesAux]
  simp

theorem readlinesAux_ch (ch : Char) (rest acc : List Char) (h : ¬ ch = '\n') :
    readlinesAux (ch :: rest) acc = readlinesAux rest (ch :: acc) := by
  rw [readlinesAux]
  simp [h]

theorem readlinesAux_append (c : List Char) (hne : c ≠ [])
    (hend : endsNl c = true) :
    ∀ (acc x : List Char),
      readlinesAux (c ++ x) acc = readlinesAux c acc ++ readlinesAux x [] := by
  induction c with
  | nil => exact absurd rfl hne
  | cons c' rest ih =>
    intro acc x
    cases rest with
    | nil =>
      have hc' : c' = '\n' := by simpa [endsNl] using hend
      subst hc'
      rw [List.cons_append, List.nil_append, readlinesAux_nl x acc,
        readlinesAux_nl [] acc]
      simp [readlinesAux]
    | cons r rs =>
      have hend' : endsNl (r :: rs) = true := by simpa [endsNl] using hend
      by_cases hc : c' = '\n'
      · subst hc
        rw [List.cons_append, readlinesAux_nl (r :: rs ++ x) acc,
          readlinesAux_nl (r :: rs) acc]
        rw [ih (by simp) hend' [] x]
        simp
      · rw [List.cons_append, readlinesAux_ch c' (r :: rs ++ x) acc hc,
          readlinesAux_ch c' (r :: rs) acc hc]
        exact ih (by simp) hend' (c' :: acc) x

theorem readlines_append (c x : List Char) (hend : endsNl c = true) :
    readlines (c ++ x) = readlines c ++ readlines x := by
  cases hc : c with
  | nil => simp [readlines, readlinesAux]
  | cons a as =>
    rw [readlines, readlines, readlines,
      readlinesAux_append (a :: as) (by simp) (hc ▸ hend)]

theorem readlinesAux_single (l : List Char) (hnl : ('\n' : Char) ∉ l) :
    ∀ acc, readlinesAux (l ++ ['\n']) acc = [acc.reverse ++ (l ++ ['\n'])] := by
  induction l with
  | nil =>
    intro acc
    rw [List.nil_append, readlinesAux_nl [] acc]
    simp [readlinesAux]
  | cons c r ih =>
    intro acc
    have hc : ¬ c = '\n' := fun h => hnl (by simp [h])
    rw [List.cons_append, readlinesAux_ch c (r ++ ['\n']) acc hc,
      ih (fun h => hnl (by simp [h])) (c :: acc)]
    simp

theorem readlines_single (l : List Char) (hnl : ('\n' : Char) ∉ l) :
    readlines (l ++ ['\n']) = [l ++ ['\n']] := by
  rw [readlines, readlinesAux_single l hnl []]
  simp

theorem countBlockLines_zero (w : String) (content : List Char)
    (h : occursIn (blockLine w) content = false) :
    countBlockLines w content = 0 := by
  rw [countBlockLines, List.countP_eq_zero]
  intro l hl
  by_contra hb
  rw [Bool.or_eq_true] at hb
  have hocc : occursIn (blockLine w) l = true := by
    rcases hb with hb | hb
    · rw [decide_eq_true_iff] at hb
      rw [hb]
      exact occursIn_self_append _ _
    · rw [decide_eq_true_iff] at hb
      rw [hb]
      have h2 := occursIn_self_append (blockLine w) []
      simpa using h2
  have h3 := occursIn_of_mem_lines (blockLine w) content l hl hocc
  rw [h3] at h
  cases h

theorem block_website_noop (w : String) (c : List Char)
    (h : occursIn (blockLine w) c = true) : (block_website [w] c).1 = c := by
  simp [block_website, h]

/-- C9 (amended): starting from a hosts file that ends with a newline
(or is empty) and does not yet contain the blocking text for the entry
(whose text holds no newline), blocking twice reports success both
times, leaves the hosts file with exactly one blocking line for the
entry — the second call writes nothing — and unblocking an entry that
is not present rewrites the identical content and reports success. -/
theorem C9_block_unblock_idempotent :
    ∀ (w : String) (content : List Char),
      occursIn (blockLine w) content = false →
      endsNl content = true →
      ('\n' : Char) ∉ blockLine w →
      (block_website [w] content).2.1 = true ∧
      (block_website [w] (block_website [w] content).1).2.1 = true ∧
      (block_website [w] (block_website [w] content).1).1 =
        (block_website [w] content).1 ∧
      countBlockLines w (block_website [w] content).1 = 1 ∧
      (remove_website_block [w] content).1 = content ∧
      (remove_website_block [w] content).2.1 = true := by
  intro w content hocc hend hnl
  have hc₁ : (block_website [w] content).1 = content ++ (blockLine w ++ ['\n']) := by
    simp [block_website, hocc]
  have hocc₁ : occursIn (blockLine w) (block_website [w] content).1 = true := by
    rw [hc₁]
    exact occursIn_prepend _ content _ (occursIn_self_append _ _)
  refine ⟨rfl, rfl, ?_, ?_, ?_, rfl⟩
  · exact block_website_noop w _ hocc₁
  · rw [hc₁, countBlockLines, readlines_append content _ hend,
      readlines_single (blockLine w) hnl, List.countP_append]
    have h0 : (readlines content).countP
        (fun l => l = blockLine w ++ ['\n'] || l = blockLine w) = 0 :=
      countBlockLines_zero w content hocc
    rw [h0]
    simp
  · have hlines : ∀ l ∈ readlines content,
        occursIn (blockLine w) l = false := by
      intro l hl
      by_contra hb
      rw [Bool.not_eq_false] at hb
      have h4 := occursIn_of_mem_lines (blockLine w) content l hl hb
      rw [h4] at hocc
      cases hocc
    have hfilter : (readlines content).filter
        (fun l => !([w].any (fun w2 => occursIn (blockLine w2) l))) =
        readlines content := by
      rw [List.filter_eq_self]
      intro l hl
      simp [hlines l hl]
    have hrw : (remove_website_block [w] content).1 =
        ((readlines content).filter
          (fun l => !([w].any (fun w2 => occursIn (blockLine w2) l)))).flatten := rfl
    rw [hrw, hfilter, readlines_flatten]

/-- C9 (counterexample): over a hosts state that already contains the
blocking line twice, both `block_website` calls are no-op successes
and *two* blocking lines remain — not "exactly one entry", refuting
the claim's quantification over every hosts-file state. -/
theorem C9_counterexample :
    (block_website ["x.com"] hostsDup).2.1 = true ∧
    (block_website ["x.com"] (block_website ["x.com"] hostsDup).1).2.1 = true ∧
    countBlockLines "x.com"
      (block_website ["x.com"] (block_website ["x.com"] hostsDup).1).1 = 2 := by
  decide

/-- C9 (witness): the amended theorem on a fresh hosts file. -/
theorem C9_block_unblock_idempotent_witness :
    (block_website ["x.com"] hostsClean).2.1 = true ∧
    (block_website ["x.com"] (block_website ["x.com"] hostsClean).1).2.1 = true ∧
    (block_website ["x.com"] (block_website ["x.com"] hostsClean).1).1 =
      (block_website ["x.com"] hostsClean).1 ∧
    countBlockLines "x.com" (block_website ["x.com"] hostsClean).1 = 1 ∧
    (remove_website_block ["x.com"] hostsClean).1 = hostsClean ∧
    (remove_website_block ["x.com"] hostsClean).2.1 = true :=
  C9_block_unblock_idempotent "x.com" hostsClean (by decide) (by decide) (by decide)
